import Mathlib

/-!
Verification development for the MaStR solar-data fetch pipeline
(`fetch_solar_data.py`).  The dispatcher (`process_file`), the worker loop
(`process_units`), the per-call retry wrapper (`fetch_unit`), and the input
validation (`_process_inputs`) are embedded as pure Lean functions; machine
effects (the multiprocessing queue, the CSV writer, signals) become explicit
data: the queue becomes the list of enqueued messages, the writer becomes the
list of written rows, and the two-level interrupt flag becomes two optional
indices saying when each signal arrives.
-/

namespace Mastr

/-- Module-level constant `QUEUE_SIZE = 20`. -/
def QUEUE_SIZE : Nat := 20

/-- Module-level constant `BATCH_CHUNK_SIZE = 100`. -/
def BATCH_CHUNK_SIZE : Nat := 100

/-- Module-level constant `ERRORS_LIMIT = 20`. -/
def ERRORS_LIMIT : Nat := 20

/-- A field value of a serialized SOAP response: either a nested mapping
(an `OrderedDict`, which has a `get` attribute) or a plain scalar value. -/
inductive Value where
  | nested (fields : List (String × String))
  | plain (s : String)
deriving DecidableEq

/-- A serialized response record: ordered mapping from field name to value. -/
abbrev Record := List (String × Value)

/-- A written CSV row: ordered mapping from field name to cell text. -/
abbrev Row := List (String × String)

/-- One cell of the written row, per the dict comprehension at line 102:
the inner value under key `Wert` with default `<<unknown structure>>` when the
value is a nested mapping, the value itself otherwise. -/
def cellOf : Value → String
  | .nested fields => (fields.lookup "Wert").getD "<<unknown structure>>"
  | .plain s => s

/-- The row passed to `writer.writerow` for a serialized record. -/
def rowOf (r : Record) : Row := r.map fun kv => (kv.1, cellOf kv.2)

/-- Result of one `fetch_unit` call as observed by the worker loop, i.e. after
the retry wrapper has finished: a serialized record, a `zeep` `Fault`
(caught at line 106), or a `requests.ReadTimeout` (not caught by the loop). -/
inductive FetchResult where
  | success (rec : Record)
  | fault (msg : String)
  | timeout
deriving DecidableEq

/-- A message placed on the multiprocessing queue: a batch of identifiers
(`queue.put(batch)`) or the `None` termination sentinel (`queue.put(None)`). -/
inductive Msg (α : Type) where
  | data (batch : List α)
  | shutdown
deriving DecidableEq

/-- The ways the dispatcher in `process_file` can die with an uncaught
exception before finishing: `StopIteration` escaping the row-skipping loop,
an `IndexError` from `row[index]`, or (never reached for positive batch
sizes) running out of modelled loop fuel. -/
inductive DispatchError where
  | stopIteration
  | indexError
  | fuelExhausted
deriving DecidableEq

/-- The inner `for _ in range(BATCH_CHUNK_SIZE)` loop of `process_file`
(lines 134-139): pull up to `B` rows, extract column `index` of each, and
report whether the source ran dry (`finish`).  A missing column raises
`IndexError` and the batch built so far is never enqueued. -/
def fillBatch (index : Nat) : Nat → List (List String) →
    Except DispatchError (List String × List (List String) × Bool)
  | 0, rows => .ok ([], rows, false)
  | _ + 1, [] => .ok ([], [], true)
  | n + 1, row :: rows =>
    match row.get? index with
    | none => .error .indexError
    | some v =>
      match fillBatch index n rows with
      | .error e => .error e
      | .ok (batch, rest, finish) => .ok (v :: batch, rest, finish)

/-- The row-offset loop of `process_file` (lines 127-129):
`for _ in range(start_line): next(reader)`.  Raises `StopIteration` when the
file has fewer rows than the requested offset. -/
def skipRows : Nat → List (List String) → Except DispatchError (List (List String))
  | 0, rows => .ok rows
  | _ + 1, [] => .error .stopIteration
  | n + 1, _ :: rows => skipRows n rows

/-- The `while True` dispatch loop of `process_file` (lines 131-152): build a
batch, enqueue it, and on end of source enqueue one `None` sentinel per
worker.  The fuel argument only bounds the recursion; `rows.length + 1` is
always enough when `0 < B`. -/
def dispatchAux (index B P : Nat) : Nat → List (List String) →
    Except DispatchError (List (Msg String))
  | 0, _ => .error .fuelExhausted
  | fuel + 1, rows =>
    match fillBatch index B rows with
    | .error e => .error e
    | .ok (batch, rest, finish) =>
      if finish then .ok (Msg.data batch :: List.replicate P Msg.shutdown)
      else
        match dispatchAux index B P fuel rest with
        | .error e => .error e
        | .ok msgs => .ok (Msg.data batch :: msgs)

/-- The dispatcher `process_file` restricted to its queue effects: the list of
messages it enqueues, or the uncaught exception it dies with.  `rows` is the
parsed content of the input CSV file. -/
def process_file (index B P start_line : Nat) (rows : List (List String)) :
    Except DispatchError (List (Msg String)) :=
  match skipRows start_line rows with
  | .error e => .error e
  | .ok rows' => dispatchAux index B P (rows'.length + 1) rows'

/-- The `Data` batches among a list of queue messages, in enqueue order. -/
def dataBatches {α : Type} : List (Msg α) → List (List α)
  | [] => []
  | .data b :: rest => b :: dataBatches rest
  | .shutdown :: rest => dataBatches rest

/-- The number of `Shutdown` sentinels among a list of queue messages. -/
def shutdownCount {α : Type} : List (Msg α) → Nat
  | [] => 0
  | .data _ :: rest => shutdownCount rest
  | .shutdown :: rest => shutdownCount rest + 1

/-- Specification-side chunking used to state what the dispatcher enqueues: a
final (possibly empty) short chunk when fewer than `B` elements remain, a full
chunk of `B` otherwise.  Mirrors the observable batching of `process_file`,
including the trailing empty batch when `B` divides the length. -/
def chunks (B : Nat) {α : Type} (l : List α) : List (List α) :=
  if h : B = 0 ∨ l.length < B then [l]
  else
    have : (l.drop B).length < l.length := by
      simp only [List.length_drop]
      omega
    l.take B :: chunks B (l.drop B)
termination_by l.length


/-- The column extraction `row[index]` performed on each consumed row, with an
arbitrary default in the (here excluded) out-of-range case. -/
def colAt (index : Nat) (row : List String) : String := (row.get? index).getD ""


/-! ### Worker loop (`process_units`, lines 52-108)

The two-level interrupt flag is modelled by two optional global fetch
indices.  `sigAt = some k` means the first `SIGINT` (which sets
`force_termination`) becomes visible at every `force_termination` check from
global fetch index `k` on — i.e. the signal arrived while fetch `k - 1` was
in flight (or before any fetch for `k = 0`).  `forcedAt = some k` means a
second `SIGINT` raises `KeyboardInterrupt` while fetch `k` is in flight, so
that fetch never completes.  A global fetch index counts `fetch_unit` calls
begun by this worker since it started, across batches. -/

/-- Whether the `force_termination` flag reads true at the check preceding
global fetch index `i`. -/
def sigSeen : Option Nat → Nat → Bool
  | none, _ => false
  | some k, i => k ≤ i

/-- How one iteration of the worker's `while True` body over a single batch
ends. -/
inductive BatchOutcome where
  | completed
  | budgetExceeded
  | terminated
  | crashed
  | forcedExit
deriving DecidableEq

/-- Observable effects of processing one batch: identifiers whose fetch was
begun, rows written, how the iteration ended, and the next global fetch
index. -/
structure BatchResult (α : Type) where
  attempted : List α
  written : List Row
  outcome : BatchOutcome
  nextIdx : Nat
deriving DecidableEq

/-- The `for unit_number in unit_mastr_numbers` loop (lines 90-108): check
`force_termination`, check the error budget, fetch with retries, write the
row on success, count a `Fault` and continue, die on an uncaught
`ReadTimeout`.  `i` is the global fetch index, `e` the running
`errors_count`. -/
def process_batch {α : Type} (fetch : α → FetchResult) (sigAt forcedAt : Option Nat) :
    List α → Nat → Nat → BatchResult α
  | [], i, _ => ⟨[], [], .completed, i⟩
  | id :: rest, i, e =>
    if sigSeen sigAt i then ⟨[], [], .terminated, i⟩
    else if e > ERRORS_LIMIT then ⟨[], [], .budgetExceeded, i⟩
    else if forcedAt = some i then ⟨[id], [], .forcedExit, i + 1⟩
    else
      match fetch id with
      | .success rec =>
        let r := process_batch fetch sigAt forcedAt rest (i + 1) 0
        ⟨id :: r.attempted, rowOf rec :: r.written, r.outcome, r.nextIdx⟩
      | .fault _ =>
        let r := process_batch fetch sigAt forcedAt rest (i + 1) (e + 1)
        ⟨id :: r.attempted, r.written, r.outcome, r.nextIdx⟩
      | .timeout => ⟨[id], [], .crashed, i + 1⟩

/-- How the worker process ends. -/
inductive WorkerExit where
  | shutdownReceived
  | terminated
  | crashed
  | forcedExit
  | starved
deriving DecidableEq

/-- Observable effects of a whole worker run over its delivered message
sequence. -/
structure WorkerRun (α : Type) where
  attempted : List α
  written : List Row
  exit : WorkerExit
  nextIdx : Nat
deriving DecidableEq

/-- The worker's `while True` loop (lines 81-108) over the sequence of
messages this worker receives from the queue: return on the `None` sentinel,
otherwise process the batch (with `errors_count` freshly reset to `0`) and
loop.  `starved` marks a worker still blocked in `queue.get` when the
modelled message sequence runs out. -/
def process_units {α : Type} (fetch : α → FetchResult) (sigAt forcedAt : Option Nat) :
    List (Msg α) → Nat → WorkerRun α
  | [], i => ⟨[], [], .starved, i⟩
  | .shutdown :: _, i => ⟨[], [], .shutdownReceived, i⟩
  | .data batch :: rest, i =>
    let r := process_batch fetch sigAt forcedAt batch i 0
    match r.outcome with
    | .completed =>
      let w := process_units fetch sigAt forcedAt rest r.nextIdx
      ⟨r.attempted ++ w.attempted, r.written ++ w.written, w.exit, w.nextIdx⟩
    | .budgetExceeded =>
      let w := process_units fetch sigAt forcedAt rest r.nextIdx
      ⟨r.attempted ++ w.attempted, r.written ++ w.written, w.exit, w.nextIdx⟩
    | .terminated => ⟨r.attempted, r.written, .terminated, r.nextIdx⟩
    | .crashed => ⟨r.attempted, r.written, .crashed, r.nextIdx⟩
    | .forcedExit => ⟨r.attempted, r.written, .forcedExit, r.nextIdx⟩

/-! ### Per-batch I/O event trace

`batch_trace` replays the same loop recording the order of remote calls and
sink operations.  The source performs `fetch_unit` then `writer.writerow` and
never calls `flush`, so no `flushEv` is ever emitted; the file is flushed only
when `with output.open('a')` closes it at worker exit. -/

/-- An I/O event of the worker loop, as it would act on the output sink and
the remote client. -/
inductive Ev (α : Type) where
  | fetchEv (id : α)
  | writeEv (row : Row)
  | flushEv
deriving DecidableEq

/-- The I/O event trace of the batch loop, mirroring `process_batch`. -/
def batch_trace {α : Type} (fetch : α → FetchResult) (sigAt forcedAt : Option Nat) :
    List α → Nat → Nat → List (Ev α)
  | [], _, _ => []
  | id :: rest, i, e =>
    if sigSeen sigAt i then []
    else if e > ERRORS_LIMIT then []
    else if forcedAt = some i then [.fetchEv id]
    else
      match fetch id with
      | .success rec =>
        .fetchEv id :: .writeEv (rowOf rec) :: batch_trace fetch sigAt forcedAt rest (i + 1) 0
      | .fault _ => .fetchEv id :: batch_trace fetch sigAt forcedAt rest (i + 1) (e + 1)
      | .timeout => [.fetchEv id]

/-- Decidable rendering of the claim "every record write is immediately
flushed to the destination before the next identifier is fetched": between
every write event and every later fetch event there is a flush event. -/
def flushedPerRecord {α : Type} (t : List (Ev α)) : Bool :=
  (List.range t.length).all fun i =>
    (List.range t.length).all fun j =>
      !(decide (i < j)) ||
      !(match t.getD i .flushEv with | .writeEv _ => true | _ => false) ||
      !(match t.getD j .flushEv with | .fetchEv _ => true | _ => false) ||
      (List.range t.length).any fun k =>
        decide (i < k) && decide (k < j) &&
        (match t.getD k (.writeEv []) with | Ev.flushEv => true | _ => false)

/-- Whether a trace contains any flush of the output sink. -/
def hasFlushEv {α : Type} (t : List (Ev α)) : Bool :=
  t.any fun ev => match ev with | .flushEv => true | _ => false

/-- The row the worker writes for an identifier when its fetch succeeds,
`none` when the fetch does not produce a record. -/
def fetchRow {α : Type} (fetch : α → FetchResult) (id : α) : Option Row :=
  match fetch id with
  | .success rcd => some (rowOf rcd)
  | _ => none

/-! ### Retry wrapper (`fetch_unit`, line 46-49) -/

/-- Outcome of one raw remote call `client_bind.GetEinheitSolar(...)`. -/
inductive CallOutcome where
  | ok (rec : Record)
  | fault (msg : String)
  | readTimeout
  | otherError (msg : String)
deriving DecidableEq

/-- Whether the retry decorator classifies this outcome as retryable: exactly
`zeep.exceptions.Fault` and `requests.ReadTimeout`, the tuple given at
line 46. -/
def retryable : CallOutcome → Bool
  | .fault _ => true
  | .readTimeout => true
  | _ => false

/-- The error the wrapper propagates for a given failed call outcome. -/
inductive FetchErr where
  | fault (msg : String)
  | readTimeout
  | other (msg : String)
deriving DecidableEq

/-- The classified error carried by a retryable or unclassified outcome. -/
def classifiedErr : CallOutcome → FetchErr
  | .fault m => .fault m
  | .readTimeout => .readTimeout
  | .otherError m => .other m
  | .ok _ => .other "not an error"

/-- Modelled from the spec: the retry wrapper around the remote call is the
third-party decorator `backoff.on_exception(backoff.expo, (Fault, ReadTimeout),
factor=5, max_tries=3)` applied at line 46; the decorator's own code is not
part of this repository.  Per spec section 4.3 it retries (with backoff delay,
invisible here) only the classified transient faults, gives up after the
configured maximum number of calls, re-raising the last classified error, and
lets any other exception propagate immediately.  `call i` is the outcome of
the `i`-th raw remote call; the result pairs the number of calls issued with
the final outcome. -/
def retryLoop (call : Nat → CallOutcome) : Nat → Nat → Nat × Except FetchErr Record
  | _, 0 => (0, .error (.other "no attempts allowed"))
  | i, tries + 1 =>
    match call i with
    | .ok rec => (1, .ok rec)
    | .fault m =>
      if tries = 0 then (1, .error (.fault m))
      else
        let r := retryLoop call (i + 1) tries
        (r.1 + 1, r.2)
    | .readTimeout =>
      if tries = 0 then (1, .error .readTimeout)
      else
        let r := retryLoop call (i + 1) tries
        (r.1 + 1, r.2)
    | .otherError m => (1, .error (.other m))

/-- `fetch_unit` as the worker sees it: the retry wrapper instantiated with
`max_tries = 3`. -/
def fetch_unit (call : Nat → CallOutcome) : Nat × Except FetchErr Record :=
  retryLoop call 0 3

/-! ### Startup input validation (`_process_inputs`, lines 155-178, and
`main`, lines 193-200)

Input specifications are modelled as lists of characters so that Python's
`':' in input` and `input.split(':')` can be embedded executably. -/

/-- Python's `s.split(':')`. -/
def splitColon : List Char → List (List Char)
  | [] => [[]]
  | c :: rest =>
    let r := splitColon rest
    if c = ':' then [] :: r
    else
      match r with
      | [] => [[c]]
      | s :: ss => (c :: s) :: ss

/-- Python's `int(s)` for the digit strings relevant here: an optional sign
followed by decimal digits; anything else raises `ValueError`. -/
def parseDigits : List Char → Option Nat
  | [] => none
  | cs =>
    cs.foldl
      (fun acc c =>
        match acc with
        | none => none
        | some n => if c.isDigit then some (n * 10 + (c.toNat - 48)) else none)
      (some 0)

/-- Python's `int(s)` with an optional leading sign. -/
def parseInt : List Char → Option Int
  | '-' :: cs => (parseDigits cs).map fun n => -(n : Int)
  | '+' :: cs => (parseDigits cs).map fun n => (n : Int)
  | cs => (parseDigits cs).map fun n => (n : Int)

/-- `_process_inputs` (lines 155-178): resolve each input specification to a
path and a start line, raising on more than one colon, on a nonexistent path,
or on a non-numeric start line.  `pathExists` abstracts
`pathlib.Path(...).exists()`. -/
def _process_inputs (pathExists : List Char → Bool) :
    List (List Char) → Except String (List (List Char × Int))
  | [] => .ok []
  | inp :: rest =>
    if inp.contains ':' then
      let splits := splitColon inp
      if splits.length > 2 then .error "Unknown format of input! Expected only one colon!"
      else if !pathExists (splits.getD 0 []) then .error "Path does not exist"
      else
        match parseInt (splits.getD 1 []) with
        | none => .error "invalid literal for int()"
        | some n =>
          match _process_inputs pathExists rest with
          | .error e => .error e
          | .ok out => .ok ((splits.getD 0 [], n) :: out)
    else
      if !pathExists inp then .error "Path does not exist"
      else
        match _process_inputs pathExists rest with
        | .error e => .error e
        | .ok out => .ok ((inp, 0) :: out)

/-- `main` (lines 193-200) restricted to its pipeline effects: input
validation is evaluated in full first (`_process_inputs(input)` is a list),
then one dispatcher run per resolved input.  Worker processes are spawned
only inside `process_file`, so a validation error means no worker was spawned
and no message enqueued.  `contents` abstracts reading a CSV file. -/
def main_run (pathExists : List Char → Bool) (index B P : Nat)
    (contents : List Char → List (List String)) (inputs : List (List Char)) :
    Except String (List (Except DispatchError (List (Msg String)))) :=
  match _process_inputs pathExists inputs with
  | .error e => .error e
  | .ok l => .ok (l.map fun pr => process_file index B P pr.2.toNat (contents pr.1))

/-- Number of worker processes spawned by a run of `main`: `P` per
successfully validated input file, none when validation raises. -/
def spawnedWorkers (pathExists : List Char → Bool) (P : Nat)
    (inputs : List (List Char)) : Nat :=
  match _process_inputs pathExists inputs with
  | .error _ => 0
  | .ok l => l.length * P

/-- An input specification that `_process_inputs` must reject per the claim:
its path does not exist, or it contains more than one colon. -/
def badInput (pathExists : List Char → Bool) (inp : List Char) : Prop :=
  (inp.contains ':' = true ∧ (splitColon inp).length > 2) ∨
  (inp.contains ':' = true ∧ (splitColon inp).length ≤ 2 ∧
    pathExists ((splitColon inp).getD 0 []) = false) ∨
  (inp.contains ':' = false ∧ pathExists inp = false)

/-- Whether an `Except` computation finished without raising. -/
def exceptOk {ε α : Type} : Except ε α → Bool
  | .ok _ => true
  | .error _ => false

/-! ### Dispatcher lemmas -/

lemma chunks_of_lt {α : Type} {B : Nat} {l : List α} (h : l.length < B) :
    chunks B l = [l] := by
  rw [chunks]
  simp [h]

lemma chunks_of_le {α : Type} {B : Nat} (hB : 0 < B) {l : List α}
    (h : B ≤ l.length) : chunks B l = l.take B :: chunks B (l.drop B) := by
  rw [chunks]
  simp [Nat.not_lt.mpr h, Nat.pos_iff_ne_zero.mp hB]

lemma chunks_length {B : Nat} (hB : 0 < B) {α : Type} (l : List α) :
    (chunks B l).length = l.length / B + 1 := by
  generalize hn : l.length = n
  induction n using Nat.strong_induction_on generalizing l with
  | _ n ih =>
    rcases Nat.lt_or_ge l.length B with hlt | hge
    · rw [chunks_of_lt hlt, List.length_singleton, Nat.div_eq_of_lt (hn ▸ hlt)]
    · rw [chunks_of_le hB hge, List.length_cons]
      have hdrop : (l.drop B).length = n - B := by
        simp [List.length_drop, hn]
      have hlt' : n - B < n := by omega
      rw [ih (n - B) hlt' _ hdrop, ← hn, Nat.div_eq_sub_div hB hge]

lemma chunks_flatten {B : Nat} {α : Type} (l : List α) :
    (chunks B l).flatten = l := by
  generalize hn : l.length = n
  induction n using Nat.strong_induction_on generalizing l with
  | _ n ih =>
    by_cases h : B = 0 ∨ l.length < B
    · rw [chunks]
      simp [h]
    · push_neg at h
      obtain ⟨hB, hge⟩ := h
      rw [chunks_of_le (Nat.pos_of_ne_zero hB) hge, List.flatten_cons]
      have hdrop : (l.drop B).length = n - B := by
        simp [List.length_drop, hn]
      have hlt' : n - B < n := by
        have : 0 < B := Nat.pos_of_ne_zero hB
        omega
      rw [ih (n - B) hlt' _ hdrop, List.take_append_drop]

lemma chunks_sizes {B : Nat} (hB : 0 < B) {α : Type} (l : List α) :
    ∀ c ∈ chunks B l, c.length ≤ B := by
  generalize hn : l.length = n
  induction n using Nat.strong_induction_on generalizing l with
  | _ n ih =>
    intro c hc
    rcases Nat.lt_or_ge l.length B with hlt | hge
    · rw [chunks_of_lt hlt] at hc
      simp only [List.mem_singleton] at hc
      subst hc
      exact Nat.le_of_lt hlt
    · rw [chunks_of_le hB hge] at hc
      rcases List.mem_cons.mp hc with hc | hc
      · subst hc
        simp [List.length_take]
      · have hdrop : (l.drop B).length = n - B := by
          simp [List.length_drop, hn]
        have hlt' : n - B < n := by omega
        exact ih (n - B) hlt' _ hdrop c hc

lemma fillBatch_eq (index : Nat) :
    ∀ (B : Nat) (rows : List (List String)),
      (∀ r ∈ rows.take B, index < r.length) →
      fillBatch index B rows =
        .ok ((rows.take B).map (colAt index), rows.drop B, decide (rows.length < B)) := by
  intro B
  induction B with
  | zero =>
    intro rows _
    simp [fillBatch, colAt]
  | succ n ih =>
    intro rows hval
    cases rows with
    | nil => simp [fillBatch]
    | cons row rows =>
      have hrow : index < row.length := by
        apply hval
        simp [List.take_cons]
      obtain ⟨v, hv⟩ : ∃ v, row.get? index = some v := by
        cases h : row.get? index with
        | none =>
          rw [List.get?_eq_none] at h
          omega
        | some v => exact ⟨v, rfl⟩
      have hvaltail : ∀ r ∈ rows.take n, index < r.length := by
        intro r hr
        apply hval
        simp [List.take_cons, hr]
      have hcol : colAt index row = v := by
        simp only [colAt, hv, Option.getD_some]
      simp only [fillBatch, hv, ih rows hvaltail, List.take_succ_cons, List.map_cons,
        List.drop_succ_cons, List.length_cons, hcol]
      have hdec : decide (rows.length + 1 < n + 1) = decide (rows.length < n) := by
        simp
      rw [hdec]

lemma dispatchAux_eq (index B P : Nat) (hB : 0 < B) :
    ∀ (fuel : Nat) (rows : List (List String)), rows.length < fuel →
      (∀ r ∈ rows, index < r.length) →
      dispatchAux index B P fuel rows =
        .ok ((chunks B (rows.map (colAt index))).map Msg.data
             ++ List.replicate P Msg.shutdown) := by
  intro fuel
  induction fuel with
  | zero =>
    intro rows h _
    omega
  | succ fuel ih =>
    intro rows hfuel hval
    have hvaltake : ∀ r ∈ rows.take B, index < r.length := fun r hr =>
      hval r (List.mem_of_mem_take hr)
    rw [dispatchAux, fillBatch_eq index B rows hvaltake]
    rcases Nat.lt_or_ge rows.length B with hlt | hge
    · have htake : rows.take B = rows := List.take_of_length_le (Nat.le_of_lt hlt)
      have hchunks : chunks B (rows.map (colAt index)) = [rows.map (colAt index)] :=
        chunks_of_lt (by simpa using hlt)
      simp [hlt, htake, hchunks]
    · have hrestlen : (rows.drop B).length < fuel := by
        have : (rows.drop B).length = rows.length - B := by simp
        omega
      have hvalrest : ∀ r ∈ rows.drop B, index < r.length := fun r hr =>
        hval r (List.mem_of_mem_drop hr)
      have hnotfin : ¬ rows.length < B := Nat.not_lt.mpr hge
      have hchunks : chunks B (rows.map (colAt index)) =
          (rows.map (colAt index)).take B :: chunks B ((rows.map (colAt index)).drop B) :=
        chunks_of_le hB (by simpa using hge)
      simp [hnotfin, ih (rows.drop B) hrestlen hvalrest, hchunks, List.map_take,
        List.map_drop]

lemma skipRows_of_le : ∀ (n : Nat) (rows : List (List String)), n ≤ rows.length →
    skipRows n rows = .ok (rows.drop n) := by
  intro n
  induction n with
  | zero => intro rows _; simp [skipRows]
  | succ n ih =>
    intro rows h
    cases rows with
    | nil => simp at h
    | cons r rows =>
      simp only [List.length_cons] at h
      simpa [skipRows] using ih rows (by omega)

lemma skipRows_of_gt : ∀ (n : Nat) (rows : List (List String)), rows.length < n →
    skipRows n rows = .error .stopIteration := by
  intro n
  induction n with
  | zero => intro rows h; simp at h
  | succ n ih =>
    intro rows h
    cases rows with
    | nil => simp [skipRows]
    | cons r rows =>
      simp only [List.length_cons] at h
      simpa [skipRows] using ih rows (by omega)

/-- Full characterization of the dispatcher's queue effects for `start_line = 0`
and a well-formed source. -/
lemma process_file_eq (index B P : Nat) (hB : 0 < B) (rows : List (List String))
    (hval : ∀ r ∈ rows, index < r.length) :
    process_file index B P 0 rows =
      .ok ((chunks B (rows.map (colAt index))).map Msg.data
           ++ List.replicate P Msg.shutdown) := by
  rw [process_file, skipRows_of_le 0 rows (Nat.zero_le _)]
  exact dispatchAux_eq index B P hB (rows.length + 1) rows (by omega) hval

lemma dataBatches_append_shutdowns {α : Type} (l : List (List α)) (P : Nat) :
    dataBatches (l.map Msg.data ++ List.replicate P Msg.shutdown) = l := by
  induction l with
  | nil =>
    induction P with
    | zero => rfl
    | succ P ihP => simpa [List.replicate_succ, dataBatches] using ihP
  | cons b l ih => simpa [dataBatches] using ih

lemma shutdownCount_append_shutdowns {α : Type} (l : List (List α)) (P : Nat) :
    shutdownCount (l.map Msg.data ++ List.replicate P Msg.shutdown) = P := by
  induction l with
  | nil =>
    induction P with
    | zero => rfl
    | succ P ihP => simpa [List.replicate_succ, shutdownCount] using ihP
  | cons b l ih => simpa [shutdownCount] using ih

/-! ### Claim C1 -/

/-- C1, counterexample.  The claim "the Dispatcher enqueues exactly ceil(M/B)
Data batches" fails at the empty source (M = 0): `process_file` enqueues one
(empty) Data batch before the shutdown sentinels, while ceil(0/B) = 0.  The
same off-by-one occurs whenever B divides M. -/
theorem C1_counterexample :
    process_file 0 BATCH_CHUNK_SIZE 2 0 [] =
      .ok [Msg.data [], Msg.shutdown, Msg.shutdown] ∧
    ((dataBatches [Msg.data ([] : List String), Msg.shutdown, Msg.shutdown]).length
        == (0 + BATCH_CHUNK_SIZE - 1) / BATCH_CHUNK_SIZE) = false :=
  ⟨rfl, rfl⟩

/-- C1, amended.  For every identifier source of size M whose rows all have
the selected column, the Dispatcher (`process_file`) enqueues exactly
`M / B + 1` Data batches (that is, ceil(M/B) when B does not divide M, and one
more — a trailing empty batch — when it does), each of size at most
B = `BATCH_CHUNK_SIZE`, such that the concatenation of their Identifiers in
enqueue order equals the source's Identifier sequence, each Identifier
position appearing exactly once. -/
theorem C1_theorem (index P : Nat) (rows : List (List String))
    (hval : ∀ r ∈ rows, index < r.length) :
    process_file index BATCH_CHUNK_SIZE P 0 rows =
      .ok ((chunks BATCH_CHUNK_SIZE (rows.map (colAt index))).map Msg.data
           ++ List.replicate P Msg.shutdown) ∧
    (chunks BATCH_CHUNK_SIZE (rows.map (colAt index))).length
      = rows.length / BATCH_CHUNK_SIZE + 1 ∧
    (chunks BATCH_CHUNK_SIZE (rows.map (colAt index))).flatten
      = rows.map (colAt index) ∧
    (chunks BATCH_CHUNK_SIZE (rows.map (colAt index))).all
      (fun b => decide (b.length ≤ BATCH_CHUNK_SIZE)) = true := by
  have hB : 0 < BATCH_CHUNK_SIZE := by decide
  refine ⟨process_file_eq index BATCH_CHUNK_SIZE P hB rows hval, ?_, chunks_flatten _, ?_⟩
  · rw [chunks_length hB, List.length_map]
  · rw [List.all_eq_true]
    intro b hb
    simpa using chunks_sizes hB _ b hb

/-- C1, witness: the amended theorem applied to a concrete three-row source
with batch size 100. -/
theorem C1_witness :
    process_file 0 BATCH_CHUNK_SIZE 1 0 [["a"], ["b"], ["c"]] =
      .ok ((chunks BATCH_CHUNK_SIZE ([["a"], ["b"], ["c"]].map (colAt 0))).map Msg.data
           ++ List.replicate 1 Msg.shutdown) ∧
    (chunks BATCH_CHUNK_SIZE ([["a"], ["b"], ["c"]].map (colAt 0))).length
      = [["a"], ["b"], ["c"]].length / BATCH_CHUNK_SIZE + 1 ∧
    (chunks BATCH_CHUNK_SIZE ([["a"], ["b"], ["c"]].map (colAt 0))).flatten
      = [["a"], ["b"], ["c"]].map (colAt 0) ∧
    (chunks BATCH_CHUNK_SIZE ([["a"], ["b"], ["c"]].map (colAt 0))).all
      (fun b => decide (b.length ≤ BATCH_CHUNK_SIZE)) = true :=
  C1_theorem 0 1 [["a"], ["b"], ["c"]] (by decide)

/-! ### Claim C5 -/

/-- C5.  For every run with P workers over a well-formed source, the
Dispatcher enqueues exactly P Shutdown messages after the source is
exhausted; a worker that receives a Shutdown message terminates at once
having read exactly that message; and a worker that receives an empty Data
batch does not treat it as Shutdown — it continues waiting for further
messages exactly as if the empty batch had not been delivered. -/
theorem C5_theorem :
    (∀ (index P : Nat) (rows : List (List String)), (∀ r ∈ rows, index < r.length) →
      process_file index BATCH_CHUNK_SIZE P 0 rows =
        .ok ((chunks BATCH_CHUNK_SIZE (rows.map (colAt index))).map Msg.data
             ++ List.replicate P Msg.shutdown) ∧
      shutdownCount ((chunks BATCH_CHUNK_SIZE (rows.map (colAt index))).map Msg.data
             ++ List.replicate P Msg.shutdown) = P) ∧
    (∀ (α : Type) (fetch : α → FetchResult) (sigAt forcedAt : Option Nat)
        (rest : List (Msg α)) (i : Nat),
      process_units fetch sigAt forcedAt (Msg.shutdown :: rest) i =
        ⟨[], [], .shutdownReceived, i⟩) ∧
    (∀ (α : Type) (fetch : α → FetchResult) (sigAt forcedAt : Option Nat)
        (rest : List (Msg α)) (i : Nat),
      process_units fetch sigAt forcedAt (Msg.data [] :: rest) i =
        process_units fetch sigAt forcedAt rest i) := by
  refine ⟨?_, ?_, ?_⟩
  · intro index P rows hval
    have hB : 0 < BATCH_CHUNK_SIZE := by decide
    exact ⟨process_file_eq index BATCH_CHUNK_SIZE P hB rows hval,
      shutdownCount_append_shutdowns _ _⟩
  · intro α fetch sigAt forcedAt rest i
    rfl
  · intro α fetch sigAt forcedAt rest i
    simp [process_units, process_batch]

/-- C5, witness: the three parts of C5 at concrete inputs — a one-row source
with two workers, then a worker receiving Shutdown first, then a worker
receiving an empty Data batch first. -/
theorem C5_witness :
    (process_file 0 BATCH_CHUNK_SIZE 2 0 [["x"]] =
        .ok ((chunks BATCH_CHUNK_SIZE ([["x"]].map (colAt 0))).map Msg.data
             ++ List.replicate 2 Msg.shutdown) ∧
      shutdownCount ((chunks BATCH_CHUNK_SIZE ([["x"]].map (colAt 0))).map Msg.data
             ++ List.replicate 2 Msg.shutdown) = 2) ∧
    process_units (fun _ : String => FetchResult.timeout) none none
        [Msg.shutdown] 0 = ⟨[], [], .shutdownReceived, 0⟩ ∧
    process_units (fun _ : String => FetchResult.timeout) none none
        [Msg.data [], Msg.shutdown] 0 =
      process_units (fun _ : String => FetchResult.timeout) none none [Msg.shutdown] 0 :=
  ⟨C5_theorem.1 0 2 [["x"]] (by decide),
   C5_theorem.2.1 String (fun _ => FetchResult.timeout) none none [] 0,
   C5_theorem.2.2 String (fun _ => FetchResult.timeout) none none [Msg.shutdown] 0⟩

/-! ### Claim C10 -/

/-- C10.  If the configured row offset `start_line` exceeds the number of
rows in the input file, the dispatcher's row-skipping loop raises an
unhandled `StopIteration` before any Data batch or Shutdown message is
enqueued (the queue-effect result is the error, carrying no messages), so a
worker, which terminates only on a received Shutdown sentinel, is left
waiting on the queue rather than terminating. -/
theorem C10_theorem :
    (∀ (index B P start_line : Nat) (rows : List (List String)),
      rows.length < start_line →
      process_file index B P start_line rows = .error .stopIteration) ∧
    (∀ (α : Type) (fetch : α → FetchResult) (sigAt forcedAt : Option Nat) (i : Nat),
      process_units fetch sigAt forcedAt ([] : List (Msg α)) i = ⟨[], [], .starved, i⟩ ∧
      ((process_units fetch sigAt forcedAt ([] : List (Msg α)) i).exit
          == WorkerExit.shutdownReceived) = false) := by
  refine ⟨?_, ?_⟩
  · intro index B P start_line rows h
    rw [process_file, skipRows_of_gt start_line rows h]
  · intro α fetch sigAt forcedAt i
    exact ⟨rfl, rfl⟩

/-- C10, witness: a two-row file with `start_line = 5` makes the dispatcher
die with `StopIteration`, and a worker that is delivered nothing keeps
waiting. -/
theorem C10_witness :
    process_file 0 BATCH_CHUNK_SIZE 2 5 [["a"], ["b"]] = .error .stopIteration ∧
    (process_units (fun _ : String => FetchResult.timeout) none none [] 0 =
        ⟨[], [], .starved, 0⟩ ∧
      ((process_units (fun _ : String => FetchResult.timeout) none none [] 0).exit
          == WorkerExit.shutdownReceived) = false) :=
  ⟨C10_theorem.1 0 BATCH_CHUNK_SIZE 2 5 [["a"], ["b"]] (by decide),
   C10_theorem.2 String (fun _ => FetchResult.timeout) none none 0⟩

/-! ### Worker lemmas -/

lemma process_batch_nil {α : Type} (fetch : α → FetchResult) (s f : Option Nat)
    (i e : Nat) : process_batch fetch s f ([] : List α) i e = ⟨[], [], .completed, i⟩ :=
  rfl

lemma process_batch_not_crashed {α : Type} (fetch : α → FetchResult)
    (h : ∀ id, fetch id ≠ .timeout) (s f : Option Nat) :
    ∀ (ids : List α) (i e : Nat),
      (process_batch fetch s f ids i e).outcome ≠ .crashed := by
  intro ids
  induction ids with
  | nil => intro i e; simp [process_batch]
  | cons id rest ih =>
    intro i e
    by_cases hs : sigSeen s i
    · simp [process_batch, hs]
    · by_cases he : e > ERRORS_LIMIT
      · simp [process_batch, hs, he]
      · by_cases hf : f = some i
        · simp [process_batch, hs, he, hf]
        · cases hcall : fetch id with
          | success rcd => simpa [process_batch, hs, he, hf, hcall] using ih (i + 1) 0
          | fault m => simpa [process_batch, hs, he, hf, hcall] using ih (i + 1) (e + 1)
          | timeout => exact absurd hcall (h id)

lemma process_units_not_crashed {α : Type} (fetch : α → FetchResult)
    (h : ∀ id, fetch id ≠ .timeout) (s f : Option Nat) :
    ∀ (msgs : List (Msg α)) (i : Nat),
      (process_units fetch s f msgs i).exit ≠ .crashed := by
  intro msgs
  induction msgs with
  | nil => intro i; simp [process_units]
  | cons msg rest ih =>
    intro i
    cases msg with
    | shutdown => simp [process_units]
    | data b =>
      cases ho : (process_batch fetch s f b i 0).outcome with
      | completed => simpa [process_units, ho] using ih _
      | budgetExceeded => simpa [process_units, ho] using ih _
      | terminated => simp [process_units, ho]
      | crashed => exact absurd ho (process_batch_not_crashed fetch h s f b i 0)
      | forcedExit => simp [process_units, ho]

/-- Membership in a batch's attempted list survives into the worker run. -/
lemma mem_attempted_of_batch {α : Type} (fetch : α → FetchResult) (s f : Option Nat)
    (batch : List α) (more : List (Msg α)) (i : Nat) (id : α)
    (h : id ∈ (process_batch fetch s f batch i 0).attempted) :
    id ∈ (process_units fetch s f (Msg.data batch :: more) i).attempted := by
  cases ho : (process_batch fetch s f batch i 0).outcome <;>
    simp [process_units, ho, h]

/-- The first identifier of a batch entered with a fresh error budget and no
visible signal always has its fetch begun. -/
lemma head_attempted {α : Type} (fetch : α → FetchResult) (s : Option Nat)
    (f : Option Nat) (id : α) (rest : List α) (i : Nat)
    (hs : sigSeen s i = false) :
    id ∈ (process_batch fetch s f (id :: rest) i 0).attempted := by
  by_cases hf : f = some i
  · simp [process_batch, hs, hf, ERRORS_LIMIT]
  · cases hcall : fetch id <;> simp [process_batch, hs, hf, hcall, ERRORS_LIMIT]

/-! ### Claim C2 -/

/-- C2, counterexample.  A `ReadTimeout` that survives all retry attempts is
a classified transient fault per the retry configuration, yet it is not
caught by the worker's `except Fault` handler: on a batch of two identifiers
whose fetches time out, the worker crashes after the first identifier — the
failure is fatal, is not counted, and the next identifier of the batch is
never attempted. -/
theorem C2_counterexample :
    process_units (fun _ : String => FetchResult.timeout) none none
        [Msg.data ["u", "v"]] 0 = ⟨["u"], [], .crashed, 1⟩ ∧
    ((process_units (fun _ : String => FetchResult.timeout) none none
        [Msg.data ["u", "v"]] 0).attempted == ["u", "v"]) = false :=
  ⟨rfl, rfl⟩

/-- C2, amended.  For every Identifier whose fetch fails with a `zeep Fault`
on all retry attempts, the worker counts the exhausted failure against the
per-batch error counter and continues with the next Identifier of the same
batch, and a worker whose fetches never end in `ReadTimeout` never crashes;
but an Identifier whose fetch fails with a `ReadTimeout` on all retry
attempts crashes the worker: the rest of the batch is abandoned and the
worker loop terminates with the uncaught exception. -/
theorem C2_theorem :
    (∀ (α : Type) (fetch : α → FetchResult) (sigAt : Option Nat) (id : α)
        (rest : List α) (i e : Nat) (m : String),
      sigSeen sigAt i = false → e ≤ ERRORS_LIMIT → fetch id = .fault m →
      process_batch fetch sigAt none (id :: rest) i e =
        ⟨id :: (process_batch fetch sigAt none rest (i + 1) (e + 1)).attempted,
         (process_batch fetch sigAt none rest (i + 1) (e + 1)).written,
         (process_batch fetch sigAt none rest (i + 1) (e + 1)).outcome,
         (process_batch fetch sigAt none rest (i + 1) (e + 1)).nextIdx⟩) ∧
    (∀ (α : Type) (fetch : α → FetchResult) (sigAt forcedAt : Option Nat)
        (msgs : List (Msg α)) (i : Nat), (∀ id, fetch id ≠ .timeout) →
      ((process_units fetch sigAt forcedAt msgs i).exit == WorkerExit.crashed) = false) ∧
    (∀ (α : Type) (fetch : α → FetchResult) (sigAt : Option Nat) (id : α)
        (rest : List α) (more : List (Msg α)) (i : Nat),
      sigSeen sigAt i = false → fetch id = .timeout →
      process_units fetch sigAt none (Msg.data (id :: rest) :: more) i =
        ⟨[id], [], .crashed, i + 1⟩) := by
  refine ⟨?_, ?_, ?_⟩
  · intro α fetch sigAt id rest i e m hs he hcall
    simp [process_batch, hs, Nat.not_lt.mpr he, hcall]
  · intro α fetch sigAt forcedAt msgs i h
    have := process_units_not_crashed fetch h sigAt forcedAt msgs i
    simpa [beq_iff_eq] using this
  · intro α fetch sigAt id rest more i hs hcall
    have hb : process_batch fetch sigAt none (id :: rest) i 0 =
        ⟨[id], [], .crashed, i + 1⟩ := by
      simp [process_batch, hs, hcall, ERRORS_LIMIT]
    simp [process_units, hb]

/-- C2, witness: the amended behavior at concrete inputs — a fault is counted
and the loop moves on; a fault-only worker run does not crash; a timed-out
fetch crashes the worker at once. -/
theorem C2_witness :
    process_batch (fun _ : String => FetchResult.fault "err") none none
        (["u", "v"] : List String) 0 0 =
      ⟨"u" :: (process_batch (fun _ : String => FetchResult.fault "err") none none
          ["v"] 1 1).attempted,
       (process_batch (fun _ : String => FetchResult.fault "err") none none
          ["v"] 1 1).written,
       (process_batch (fun _ : String => FetchResult.fault "err") none none
          ["v"] 1 1).outcome,
       (process_batch (fun _ : String => FetchResult.fault "err") none none
          ["v"] 1 1).nextIdx⟩ ∧
    ((process_units (fun _ : String => FetchResult.fault "err") none none
        [Msg.data ["u", "v"], Msg.shutdown] 0).exit == WorkerExit.crashed) = false ∧
    process_units (fun _ : String => FetchResult.timeout) none none
        [Msg.data ["w"], Msg.shutdown] 0 = ⟨["w"], [], .crashed, 1⟩ :=
  ⟨C2_theorem.1 String (fun _ => FetchResult.fault "err") none "u" ["v"] 0 0 "err"
      rfl (by decide) rfl,
   C2_theorem.2.1 String (fun _ => FetchResult.fault "err") none none
      [Msg.data ["u", "v"], Msg.shutdown] 0 (fun _ => by simp),
   C2_theorem.2.2 String (fun _ => FetchResult.timeout) none "w" [] [Msg.shutdown] 0
      rfl rfl⟩

/-! ### Claim C3 -/

/-- C3.  With `ERRORS_LIMIT = 20`: on a batch of 50 Identifiers whose first
21 fetches fail with a Fault and whose remaining 29 would succeed, the worker
begins exactly the first 21 fetches, writes nothing, and discards the rest of
the batch with the budget exceeded; the discard branch triggers exactly when
the counter exceeds `ERRORS_LIMIT`; the counter is reset to 0 at the start of
every batch, so the first identifier of the batch following a discarded one
is always attempted; and a successful fetch resets the counter to 0 for the
continuation of the batch. -/
theorem C3_theorem :
    process_batch (fun n => if n < 21 then FetchResult.fault "e"
        else FetchResult.success []) none none (List.range 50) 0 0 =
      ⟨List.range 21, [], .budgetExceeded, 21⟩ ∧
    (∀ (α : Type) (fetch : α → FetchResult) (sigAt : Option Nat) (id : α)
        (rest : List α) (i e : Nat), sigSeen sigAt i = false →
      (e > ERRORS_LIMIT ↔
        process_batch fetch sigAt none (id :: rest) i e = ⟨[], [], .budgetExceeded, i⟩)) ∧
    (∀ (α : Type) (fetch : α → FetchResult) (b : List α) (id : α) (rest : List α)
        (more : List (Msg α)) (i : Nat),
      (process_batch fetch none none b i 0).outcome = .budgetExceeded →
      id ∈ (process_units fetch none none
        (Msg.data b :: Msg.data (id :: rest) :: more) i).attempted) ∧
    (∀ (α : Type) (fetch : α → FetchResult) (sigAt : Option Nat) (id : α)
        (rest : List α) (i e : Nat) (rcd : Record),
      sigSeen sigAt i = false → e ≤ ERRORS_LIMIT → fetch id = .success rcd →
      process_batch fetch sigAt none (id :: rest) i e =
        ⟨id :: (process_batch fetch sigAt none rest (i + 1) 0).attempted,
         rowOf rcd :: (process_batch fetch sigAt none rest (i + 1) 0).written,
         (process_batch fetch sigAt none rest (i + 1) 0).outcome,
         (process_batch fetch sigAt none rest (i + 1) 0).nextIdx⟩) := by
  refine ⟨by decide, ?_, ?_, ?_⟩
  · intro α fetch sigAt id rest i e hs
    constructor
    · intro he
      simp [process_batch, hs, he]
    · intro heq
      by_contra hne
      have he : ¬ e > ERRORS_LIMIT := hne
      by_cases hf : (none : Option Nat) = some i
      · simp at hf
      · cases hcall : fetch id <;> simp [process_batch, hs, he, hcall] at heq
  · intro α fetch b id rest more i hb
    have hmem : id ∈ (process_units fetch none none
        (Msg.data (id :: rest) :: more) (process_batch fetch none none b i 0).nextIdx).attempted :=
      mem_attempted_of_batch fetch none none (id :: rest) more _ id
        (head_attempted fetch none none id rest _ rfl)
    simp only [process_units, hb]
    exact List.mem_append_right _ hmem
  · intro α fetch sigAt id rest i e rcd hs he hcall
    simp [process_batch, hs, Nat.not_lt.mpr he, hcall]

/-- C3, witness: the quantified parts of C3 at concrete inputs — the budget
test at a counter of 21 on a worker whose fetches fail, the fresh budget at
the start of the batch after a discarded one, and the reset-on-success
step. -/
theorem C3_witness :
    (21 > ERRORS_LIMIT ↔
      process_batch (fun _ : Nat => FetchResult.fault "e") none none [7] 0 21 =
        ⟨[], [], .budgetExceeded, 0⟩) ∧
    (42 ∈ (process_units (fun n : Nat => if n < 21 then FetchResult.fault "e"
        else FetchResult.success []) none none
        [Msg.data (List.range 50), Msg.data [42], Msg.shutdown] 0).attempted) ∧
    process_batch (fun _ : Nat => FetchResult.success [("k", Value.plain "v")])
        none none [1, 2] 0 5 =
      ⟨1 :: (process_batch (fun _ : Nat => FetchResult.success [("k", Value.plain "v")])
          none none [2] 1 0).attempted,
       rowOf [("k", Value.plain "v")]
         :: (process_batch (fun _ : Nat => FetchResult.success [("k", Value.plain "v")])
          none none [2] 1 0).written,
       (process_batch (fun _ : Nat => FetchResult.success [("k", Value.plain "v")])
          none none [2] 1 0).outcome,
       (process_batch (fun _ : Nat => FetchResult.success [("k", Value.plain "v")])
          none none [2] 1 0).nextIdx⟩ :=
  ⟨C3_theorem.2.1 Nat (fun _ => FetchResult.fault "e") none 7 [] 0 21 rfl,
   C3_theorem.2.2.1 Nat (fun n => if n < 21 then FetchResult.fault "e"
        else FetchResult.success []) (List.range 50) 42 [] [Msg.shutdown] 0 (by decide),
   C3_theorem.2.2.2 Nat (fun _ => FetchResult.success [("k", Value.plain "v")])
        none 1 [2] 0 5 [("k", Value.plain "v")] rfl (by decide) rfl⟩

/-! ### Forced-stop lemmas -/

lemma process_batch_not_forced {α : Type} (fetch : α → FetchResult) (s : Option Nat) :
    ∀ (ids : List α) (i e : Nat),
      (process_batch fetch s none ids i e).outcome ≠ .forcedExit := by
  intro ids
  induction ids with
  | nil => intro i e; simp [process_batch]
  | cons id rest ih =>
    intro i e
    by_cases hs : sigSeen s i
    · simp [process_batch, hs]
    · by_cases he : e > ERRORS_LIMIT
      · simp [process_batch, hs, he]
      · cases hcall : fetch id with
        | success rcd => simpa [process_batch, hs, he, hcall] using ih (i + 1) 0
        | fault m => simpa [process_batch, hs, he, hcall] using ih (i + 1) (e + 1)
        | timeout => simp [process_batch, hs, he, hcall]

lemma process_batch_forced_split {α : Type} (fetch : α → FetchResult) (s : Option Nat)
    (k : Nat) : ∀ (ids : List α) (i e : Nat),
      process_batch fetch s (some k) ids i e = process_batch fetch s none ids i e ∨
      ((process_batch fetch s (some k) ids i e).outcome = .forcedExit ∧
        ∃ t, (process_batch fetch s none ids i e).written =
               (process_batch fetch s (some k) ids i e).written ++ t) := by
  intro ids
  induction ids with
  | nil => intro i e; left; rfl
  | cons id rest ih =>
    intro i e
    by_cases hs : sigSeen s i
    · left; simp [process_batch, hs]
    · by_cases he : e > ERRORS_LIMIT
      · left; simp [process_batch, hs, he]
      · by_cases hk : k = i
        · right
          refine ⟨by simp [process_batch, hs, he, hk], ?_⟩
          exact ⟨(process_batch fetch s none (id :: rest) i e).written, by
            simp [process_batch, hs, he, hk]⟩
        · cases hcall : fetch id with
          | success rcd =>
            rcases ih (i + 1) 0 with heq | ⟨ho, t, ht⟩
            · left
              simp [process_batch, hs, he, hk, hcall, heq]
            · right
              refine ⟨by simp [process_batch, hs, he, hk, hcall, ho], ⟨t, ?_⟩⟩
              simp [process_batch, hs, he, hk, hcall, ht]
          | fault m =>
            rcases ih (i + 1) (e + 1) with heq | ⟨ho, t, ht⟩
            · left
              simp [process_batch, hs, he, hk, hcall, heq]
            · right
              refine ⟨by simp [process_batch, hs, he, hk, hcall, ho], ⟨t, ?_⟩⟩
              simp [process_batch, hs, he, hk, hcall, ht]
          | timeout =>
            left
            simp [process_batch, hs, he, hk, hcall]

lemma process_units_written_cons {α : Type} (fetch : α → FetchResult) (s f : Option Nat)
    (b : List α) (rest : List (Msg α)) (i : Nat) :
    ∃ u, (process_units fetch s f (Msg.data b :: rest) i).written =
           (process_batch fetch s f b i 0).written ++ u := by
  cases ho : (process_batch fetch s f b i 0).outcome with
  | completed =>
    exact ⟨(process_units fetch s f rest (process_batch fetch s f b i 0).nextIdx).written,
      by simp [process_units, ho]⟩
  | budgetExceeded =>
    exact ⟨(process_units fetch s f rest (process_batch fetch s f b i 0).nextIdx).written,
      by simp [process_units, ho]⟩
  | terminated => exact ⟨[], by simp [process_units, ho]⟩
  | crashed => exact ⟨[], by simp [process_units, ho]⟩
  | forcedExit => exact ⟨[], by simp [process_units, ho]⟩

lemma process_units_forced_split {α : Type} (fetch : α → FetchResult) (s : Option Nat)
    (k : Nat) : ∀ (msgs : List (Msg α)) (i : Nat),
      ∃ t, (process_units fetch s none msgs i).written =
             (process_units fetch s (some k) msgs i).written ++ t := by
  intro msgs
  induction msgs with
  | nil => intro i; exact ⟨[], rfl⟩
  | cons msg rest ih =>
    intro i
    cases msg with
    | shutdown => exact ⟨[], rfl⟩
    | data b =>
      rcases process_batch_forced_split fetch s k b i 0 with heq | ⟨ho, t, ht⟩
      · cases hoc : (process_batch fetch s none b i 0).outcome with
        | completed =>
          obtain ⟨t, ht⟩ := ih (process_batch fetch s none b i 0).nextIdx
          exact ⟨t, by simp [process_units, heq, hoc, ht]⟩
        | budgetExceeded =>
          obtain ⟨t, ht⟩ := ih (process_batch fetch s none b i 0).nextIdx
          exact ⟨t, by simp [process_units, heq, hoc, ht]⟩
        | terminated => exact ⟨[], by simp [process_units, heq, hoc]⟩
        | crashed => exact ⟨[], by simp [process_units, heq, hoc]⟩
        | forcedExit => exact absurd hoc (process_batch_not_forced fetch s b i 0)
      · obtain ⟨u, hu⟩ := process_units_written_cons fetch s none b rest i
        refine ⟨t ++ u, ?_⟩
        have hso : (process_units fetch s (some k) (Msg.data b :: rest) i).written =
            (process_batch fetch s (some k) b i 0).written := by
          simp [process_units, ho]
        rw [hso, hu, ht, List.append_assoc]

/-! ### Provenance of written rows -/

lemma process_batch_written_prov {α : Type} (fetch : α → FetchResult) (s f : Option Nat) :
    ∀ (ids : List α) (i e : Nat) (row : Row),
      row ∈ (process_batch fetch s f ids i e).written →
      row ∈ (process_batch fetch s f ids i e).attempted.filterMap (fetchRow fetch) := by
  intro ids
  induction ids with
  | nil => intro i e row h; simp [process_batch] at h
  | cons id rest ih =>
    intro i e row h
    by_cases hs : sigSeen s i
    · simp [process_batch, hs] at h
    · by_cases he : e > ERRORS_LIMIT
      · simp [process_batch, hs, he] at h
      · by_cases hf : f = some i
        · simp [process_batch, hs, he, hf] at h
        · cases hcall : fetch id with
          | success rcd =>
            have hrow : fetchRow fetch id = some (rowOf rcd) := by
              simp [fetchRow, hcall]
            simp only [process_batch, hs, he, hf, hcall] at h ⊢
            simp only [Bool.false_eq_true, if_false, List.mem_cons] at h
            simp only [Bool.false_eq_true, if_false, List.filterMap_cons, hrow]
            rcases h with h | h
            · rw [h]
              exact List.mem_cons_self _ _
            · exact List.mem_cons_of_mem _ (ih (i + 1) 0 row h)
          | fault m =>
            have hrow : fetchRow fetch id = none := by
              simp [fetchRow, hcall]
            simp only [process_batch, hs, he, hf, hcall] at h ⊢
            simp only [Bool.false_eq_true, if_false, List.filterMap_cons, hrow]
            exact ih (i + 1) (e + 1) row h
          | timeout => simp [process_batch, hs, he, hf, hcall] at h

lemma process_units_written_prov {α : Type} (fetch : α → FetchResult) (s f : Option Nat) :
    ∀ (msgs : List (Msg α)) (i : Nat) (row : Row),
      row ∈ (process_units fetch s f msgs i).written →
      row ∈ (process_units fetch s f msgs i).attempted.filterMap (fetchRow fetch) := by
  intro msgs
  induction msgs with
  | nil => intro i row h; simp [process_units] at h
  | cons msg rest ih =>
    intro i row h
    cases msg with
    | shutdown => simp [process_units] at h
    | data b =>
      cases ho : (process_batch fetch s f b i 0).outcome with
      | completed =>
        simp only [process_units, ho, List.mem_append] at h
        simp only [process_units, ho, List.filterMap_append, List.mem_append]
        rcases h with h | h
        · exact Or.inl (process_batch_written_prov fetch s f b i 0 row h)
        · exact Or.inr (ih _ row h)
      | budgetExceeded =>
        simp only [process_units, ho, List.mem_append] at h
        simp only [process_units, ho, List.filterMap_append, List.mem_append]
        rcases h with h | h
        · exact Or.inl (process_batch_written_prov fetch s f b i 0 row h)
        · exact Or.inr (ih _ row h)
      | terminated =>
        simp only [process_units, ho] at h ⊢
        exact process_batch_written_prov fetch s f b i 0 row h
      | crashed =>
        simp only [process_units, ho] at h ⊢
        exact process_batch_written_prov fetch s f b i 0 row h
      | forcedExit =>
        simp only [process_units, ho] at h ⊢
        exact process_batch_written_prov fetch s f b i 0 row h

lemma batch_trace_no_flush {α : Type} (fetch : α → FetchResult) (s f : Option Nat) :
    ∀ (ids : List α) (i e : Nat), hasFlushEv (batch_trace fetch s f ids i e) = false := by
  intro ids
  induction ids with
  | nil => intro i e; rfl
  | cons id rest ih =>
    intro i e
    by_cases hs : sigSeen s i
    · simp [batch_trace, hs, hasFlushEv]
    · by_cases he : e > ERRORS_LIMIT
      · simp [batch_trace, hs, he, hasFlushEv]
      · by_cases hf : f = some i
        · simp [batch_trace, hs, he, hf, hasFlushEv]
        · cases hcall : fetch id with
          | success rcd =>
            have := ih (i + 1) 0
            simp only [hasFlushEv] at this
            simp [batch_trace, hs, he, hf, hcall, hasFlushEv, this]
          | fault m =>
            have := ih (i + 1) (e + 1)
            simp only [hasFlushEv] at this
            simp [batch_trace, hs, he, hf, hcall, hasFlushEv, this]
          | timeout => simp [batch_trace, hs, he, hf, hcall, hasFlushEv]

/-! ### Claim C4 -/

/-- C4, counterexample.  The worker loop performs no per-record flush: on a
batch of two identifiers that both succeed, the I/O trace is
fetch-write-fetch-write with no flush event between the first write and the
second fetch (indeed no flush event at all), so "every record write is
immediately flushed to the destination before the next identifier is
fetched" is false of the code. -/
theorem C4_counterexample :
    batch_trace (fun _ : String => FetchResult.success [("k", Value.plain "v")])
        none none ["a", "b"] 0 0 =
      [Ev.fetchEv "a", Ev.writeEv [("k", "v")], Ev.fetchEv "b",
       Ev.writeEv [("k", "v")]] ∧
    flushedPerRecord (batch_trace
        (fun _ : String => FetchResult.success [("k", Value.plain "v")])
        none none ["a", "b"] 0 0) = false :=
  ⟨rfl, by decide⟩

/-- C4, amended.  Every Record that the worker has completely written before
a forced-stop signal arrives remains present and well-formed in the sink
afterward: the forced run's written output is an initial segment of the
uninterrupted run's output, and every written row is the substituted
serialization of a record fetched for one of the run's attempted
identifiers.  However, record writes are not individually flushed before the
next identifier is fetched — the batch loop's I/O trace contains no flush
event; the output file is flushed only when it is closed at worker exit. -/
theorem C4_theorem :
    (∀ (α : Type) (fetch : α → FetchResult) (sigAt : Option Nat) (k : Nat)
        (msgs : List (Msg α)) (i : Nat),
      (process_units fetch sigAt none msgs i).written.take
          (process_units fetch sigAt (some k) msgs i).written.length
        = (process_units fetch sigAt (some k) msgs i).written) ∧
    (∀ (α : Type) (fetch : α → FetchResult) (sigAt forcedAt : Option Nat)
        (msgs : List (Msg α)) (i : Nat) (row : Row),
      row ∈ (process_units fetch sigAt forcedAt msgs i).written →
      row ∈ (process_units fetch sigAt forcedAt msgs i).attempted.filterMap
              (fetchRow fetch)) ∧
    (∀ (α : Type) (fetch : α → FetchResult) (sigAt forcedAt : Option Nat)
        (ids : List α) (i e : Nat),
      hasFlushEv (batch_trace fetch sigAt forcedAt ids i e) = false) := by
  refine ⟨?_, ?_, ?_⟩
  · intro α fetch sigAt k msgs i
    obtain ⟨t, ht⟩ := process_units_forced_split fetch sigAt k msgs i
    rw [ht]
    exact List.take_left _ _
  · intro α fetch sigAt forcedAt msgs i row h
    exact process_units_written_prov fetch sigAt forcedAt msgs i row h
  · intro α fetch sigAt forcedAt ids i e
    exact batch_trace_no_flush fetch sigAt forcedAt ids i e

/-- C4, witness: the amended guarantees at concrete inputs — a forced stop
during the second fetch of a three-identifier batch preserves the first
written record as a prefix of the uninterrupted output; the row written by a
concrete successful run is the serialization of its fetched record; and the
concrete trace has no flush event. -/
theorem C4_witness :
    (process_units (fun _ : String => FetchResult.success [("k", Value.plain "v")])
        none none [Msg.data ["a", "b", "c"], Msg.shutdown] 0).written.take
      (process_units (fun _ : String => FetchResult.success [("k", Value.plain "v")])
        none (some 1) [Msg.data ["a", "b", "c"], Msg.shutdown] 0).written.length
      = (process_units (fun _ : String => FetchResult.success [("k", Value.plain "v")])
        none (some 1) [Msg.data ["a", "b", "c"], Msg.shutdown] 0).written ∧
    [("k", "v")] ∈ (process_units
        (fun _ : String => FetchResult.success [("k", Value.plain "v")])
        none none [Msg.data ["a"], Msg.shutdown] 0).attempted.filterMap
          (fetchRow (fun _ : String => FetchResult.success [("k", Value.plain "v")])) ∧
    hasFlushEv (batch_trace
        (fun _ : String => FetchResult.success [("k", Value.plain "v")])
        none none ["a", "b"] 0 0) = false :=
  ⟨C4_theorem.1 String (fun _ => FetchResult.success [("k", Value.plain "v")])
      none 1 [Msg.data ["a", "b", "c"], Msg.shutdown] 0,
   C4_theorem.2.1 String (fun _ => FetchResult.success [("k", Value.plain "v")])
      none none [Msg.data ["a"], Msg.shutdown] 0 [("k", "v")] (by decide),
   C4_theorem.2.2 String (fun _ => FetchResult.success [("k", Value.plain "v")])
      none none ["a", "b"] 0 0⟩

/-! ### Graceful-stop lemmas -/

/-- Once the graceful flag is visible from global index `k` on, the batch
loop never advances the global fetch index beyond `max i k`: no fetch begins
at index `k` or later. -/
lemma process_batch_nextIdx_le {α : Type} (fetch : α → FetchResult) (f : Option Nat)
    (k : Nat) : ∀ (ids : List α) (i e : Nat),
      (process_batch fetch (some k) f ids i e).nextIdx ≤ max i k := by
  intro ids
  induction ids with
  | nil => intro i e; simp [process_batch]
  | cons id rest ih =>
    intro i e
    by_cases hs : sigSeen (some k) i
    · simp [process_batch, hs]
    · have hik : i < k := by
        simp [sigSeen] at hs
        omega
      by_cases he : e > ERRORS_LIMIT
      · simp [process_batch, hs, he]
      · by_cases hf : f = some i
        · simp [process_batch, hs, he, hf]
          omega
        · cases hcall : fetch id with
          | success rcd =>
            have := ih (i + 1) 0
            simp [process_batch, hs, he, hf, hcall]
            omega
          | fault m =>
            have := ih (i + 1) (e + 1)
            simp [process_batch, hs, he, hf, hcall]
            omega
          | timeout =>
            simp [process_batch, hs, he, hf, hcall]
            omega

lemma process_units_nextIdx_le {α : Type} (fetch : α → FetchResult) (f : Option Nat)
    (k : Nat) : ∀ (msgs : List (Msg α)) (i : Nat),
      (process_units fetch (some k) f msgs i).nextIdx ≤ max i k := by
  intro msgs
  induction msgs with
  | nil => intro i; simp [process_units]
  | cons msg rest ih =>
    intro i
    cases msg with
    | shutdown => simp [process_units]
    | data b =>
      have hb := process_batch_nextIdx_le fetch f k b i 0
      cases ho : (process_batch fetch (some k) f b i 0).outcome with
      | completed =>
        have := ih (process_batch fetch (some k) f b i 0).nextIdx
        simp only [process_units, ho]
        omega
      | budgetExceeded =>
        have := ih (process_batch fetch (some k) f b i 0).nextIdx
        simp only [process_units, ho]
        omega
      | terminated => simpa [process_units, ho] using hb
      | crashed => simpa [process_units, ho] using hb
      | forcedExit => simpa [process_units, ho] using hb

/-! ### Claim C7 -/

/-- C7.  After a single cancellation signal that becomes visible from global
fetch index `k` on (i.e. it arrived while fetch `k - 1` was in flight, or
earlier), a worker never begins fetching a new Identifier at any later token
check: the run's global fetch index never exceeds `k`, so no fetch with
index ≥ `k` is ever begun; a nonempty batch reached at a check where the
flag is visible is dropped with the worker terminating at once; and the
fetch in flight when the signal arrives completes and its Record is written
before the worker stops — for a signal arriving during the successful fetch
at index `k`, the loop on `id :: next :: rest` at index `k` returns exactly
the one attempted identifier, its written row, and the `terminated` exit. -/
theorem C7_theorem :
    (∀ (α : Type) (fetch : α → FetchResult) (forcedAt : Option Nat) (k : Nat)
        (msgs : List (Msg α)),
      (process_units fetch (some k) forcedAt msgs 0).nextIdx ≤ k) ∧
    (∀ (α : Type) (fetch : α → FetchResult) (forcedAt : Option Nat) (k : Nat)
        (id : α) (rest : List α) (i e : Nat), k ≤ i →
      process_batch fetch (some k) forcedAt (id :: rest) i e =
        ⟨[], [], .terminated, i⟩) ∧
    (∀ (α : Type) (fetch : α → FetchResult) (k e : Nat) (id next : α)
        (rest : List α) (rcd : Record), e ≤ ERRORS_LIMIT →
      fetch id = .success rcd →
      process_batch fetch (some (k + 1)) none (id :: next :: rest) k e =
        ⟨[id], [rowOf rcd], .terminated, k + 1⟩) := by
  refine ⟨?_, ?_, ?_⟩
  · intro α fetch forcedAt k msgs
    simpa using process_units_nextIdx_le fetch forcedAt k msgs 0
  · intro α fetch forcedAt k id rest i e hk
    have hs : sigSeen (some k) i = true := by
      simp [sigSeen, hk]
    simp [process_batch, hs]
  · intro α fetch k e id next rest rcd he hcall
    have hs : sigSeen (some (k + 1)) k = false := by
      simp [sigSeen]
    have hs' : sigSeen (some (k + 1)) (k + 1) = true := by
      simp [sigSeen]
    simp [process_batch, hs, hs', Nat.not_lt.mpr he, hcall]

/-- C7, witness: the three guarantees at concrete inputs — a worker whose
signal is visible from index 1 begins at most one fetch over a three-element
batch; a check with the flag visible drops the batch immediately; and a
signal arriving during the first (successful) fetch lets it complete and be
written before termination. -/
theorem C7_witness :
    (process_units (fun _ : String => FetchResult.success [("k", Value.plain "v")])
        (some 1) none [Msg.data ["a", "b", "c"], Msg.shutdown] 0).nextIdx ≤ 1 ∧
    process_batch (fun _ : String => FetchResult.success [("k", Value.plain "v")])
        (some 0) none ["a", "b"] 3 0 = ⟨[], [], .terminated, 3⟩ ∧
    process_batch (fun _ : String => FetchResult.success [("k", Value.plain "v")])
        (some 1) none ["a", "b", "c"] 0 0 =
      ⟨["a"], [rowOf [("k", Value.plain "v")]], .terminated, 1⟩ :=
  ⟨C7_theorem.1 String (fun _ => FetchResult.success [("k", Value.plain "v")])
      none 1 [Msg.data ["a", "b", "c"], Msg.shutdown],
   C7_theorem.2.1 String (fun _ => FetchResult.success [("k", Value.plain "v")])
      none 0 "a" ["b"] 3 0 (by decide),
   C7_theorem.2.2 String (fun _ => FetchResult.success [("k", Value.plain "v")])
      0 0 "a" "b" ["c"] [("k", Value.plain "v")] (by decide) rfl⟩

/-! ### Claim C6 -/

lemma retryLoop_calls_le (call : Nat → CallOutcome) :
    ∀ (tries i : Nat), (retryLoop call i tries).1 ≤ tries := by
  intro tries
  induction tries with
  | zero => intro i; simp [retryLoop]
  | succ t ih =>
    intro i
    cases hcall : call i with
    | ok rcd => simp [retryLoop, hcall]
    | fault m =>
      by_cases ht : t = 0
      · simp [retryLoop, hcall, ht]
      · have := ih (i + 1)
        simp [retryLoop, hcall, ht]
        omega
    | readTimeout =>
      by_cases ht : t = 0
      · simp [retryLoop, hcall, ht]
      · have := ih (i + 1)
        simp [retryLoop, hcall, ht]
        omega
    | otherError m => simp [retryLoop, hcall]

/-- C6.  The retry wrapper around the remote call, configured with
max-attempts = 3, issues at most 3 remote calls for any sequence of call
outcomes; an error kind outside the classified transient set (`Fault`,
`ReadTimeout`) reached at any attempt is propagated immediately, without any
further call; and when all 3 attempts fail with classified transient faults,
exactly 3 calls are issued and the last classified error is propagated. -/
theorem C6_theorem :
    (∀ call : Nat → CallOutcome, (fetch_unit call).1 ≤ 3) ∧
    (∀ (call : Nat → CallOutcome) (m : String) (j : Nat), j < 3 →
      (∀ i, i < j → retryable (call i) = true) → call j = .otherError m →
      fetch_unit call = (j + 1, .error (.other m))) ∧
    (∀ call : Nat → CallOutcome, (∀ i, i < 3 → retryable (call i) = true) →
      fetch_unit call = (3, .error (classifiedErr (call 2)))) := by
  refine ⟨?_, ?_, ?_⟩
  · intro call
    exact retryLoop_calls_le call 3 0
  · intro call m j hj htrans hcall
    interval_cases j
    · simp [fetch_unit, retryLoop, hcall]
    · have h0 := htrans 0 (by omega)
      cases hc0 : call 0 <;> rw [hc0] at h0 <;> simp [retryable] at h0 <;>
        simp [fetch_unit, retryLoop, hc0, hcall]
    · have h0 := htrans 0 (by omega)
      have h1 := htrans 1 (by omega)
      cases hc0 : call 0 <;> rw [hc0] at h0 <;> simp [retryable] at h0 <;>
        cases hc1 : call 1 <;> rw [hc1] at h1 <;> simp [retryable] at h1 <;>
          simp [fetch_unit, retryLoop, hc0, hc1, hcall]
  · intro call htrans
    have h0 := htrans 0 (by omega)
    have h1 := htrans 1 (by omega)
    have h2 := htrans 2 (by omega)
    cases hc0 : call 0 <;> rw [hc0] at h0 <;> simp [retryable] at h0 <;>
      cases hc1 : call 1 <;> rw [hc1] at h1 <;> simp [retryable] at h1 <;>
        cases hc2 : call 2 <;> rw [hc2] at h2 <;> simp [retryable] at h2 <;>
          simp [fetch_unit, retryLoop, hc0, hc1, hc2, classifiedErr]

/-- C6, witness: the retry bound on an always-timing-out call sequence, the
no-retry propagation of an unclassified error at the first attempt, and the
exhaustion outcome of three straight timeouts. -/
theorem C6_witness :
    (fetch_unit fun _ => CallOutcome.readTimeout).1 ≤ 3 ∧
    fetch_unit (fun _ => CallOutcome.otherError "boom") =
      (0 + 1, .error (.other "boom")) ∧
    fetch_unit (fun _ => CallOutcome.readTimeout) =
      (3, .error (classifiedErr ((fun _ => CallOutcome.readTimeout) 2))) :=
  ⟨C6_theorem.1 (fun _ => CallOutcome.readTimeout),
   C6_theorem.2.1 (fun _ => CallOutcome.otherError "boom") "boom" 0 (by omega)
      (fun i hi => absurd hi (by omega)) rfl,
   C6_theorem.2.2 (fun _ => CallOutcome.readTimeout) (fun i _ => rfl)⟩

/-! ### Claim C8 -/

/-- C8.  For every successfully fetched record: a field whose value is a
nested structure lacking the inner key `Wert` is written with the sentinel
placeholder `<<unknown structure>>` in place of its value (and the function
producing the row is total — no error is raised); a field whose value is not
a nested structure is written unchanged; and the row the worker writes for a
successful fetch is exactly this substituted serialization of the record. -/
theorem C8_theorem :
    (∀ fields : List (String × String), fields.lookup "Wert" = none →
      cellOf (Value.nested fields) = "<<unknown structure>>") ∧
    (∀ s : String, cellOf (Value.plain s) = s) ∧
    (∀ (rcd : Record) (k : String) (fields : List (String × String)),
      (k, Value.nested fields) ∈ rcd → fields.lookup "Wert" = none →
      (k, "<<unknown structure>>") ∈ rowOf rcd) ∧
    (∀ (rcd : Record) (k s : String),
      (k, Value.plain s) ∈ rcd → (k, s) ∈ rowOf rcd) ∧
    (∀ (α : Type) (fetch : α → FetchResult) (sigAt : Option Nat) (id : α)
        (rest : List α) (i e : Nat) (rcd : Record),
      sigSeen sigAt i = false → e ≤ ERRORS_LIMIT → fetch id = .success rcd →
      (process_batch fetch sigAt none (id :: rest) i e).written.head? =
        some (rowOf rcd)) := by
  refine ⟨?_, ?_, ?_, ?_, ?_⟩
  · intro fields h
    simp [cellOf, h]
  · intro s
    rfl
  · intro rcd k fields hmem h
    have : ((k, Value.nested fields).1, cellOf (k, Value.nested fields).2) ∈ rowOf rcd :=
      List.mem_map_of_mem _ hmem
    simpa [cellOf, h] using this
  · intro rcd k s hmem
    have : ((k, Value.plain s).1, cellOf (k, Value.plain s).2) ∈ rowOf rcd :=
      List.mem_map_of_mem _ hmem
    simpa [cellOf] using this
  · intro α fetch sigAt id rest i e rcd hs he hcall
    simp [process_batch, hs, Nat.not_lt.mpr he, hcall]

/-- C8, witness: the placeholder substitution and pass-through at concrete
values, and the written row of a concrete successful fetch whose record
mixes a plain field, a nested field with `Wert`, and a nested field without
it. -/
theorem C8_witness :
    cellOf (Value.nested [("Von", "1"), ("Bis", "2")]) = "<<unknown structure>>" ∧
    cellOf (Value.plain "SEE901")
      = "SEE901" ∧
    ("Lage", "<<unknown structure>>") ∈ rowOf
      [("EinheitMastrNummer", Value.plain "SEE901"),
       ("Lage", Value.nested [("Von", "1"), ("Bis", "2")])] ∧
    ("EinheitMastrNummer", "SEE901") ∈ rowOf
      [("EinheitMastrNummer", Value.plain "SEE901"),
       ("Lage", Value.nested [("Von", "1"), ("Bis", "2")])] ∧
    (process_batch (fun _ : String => FetchResult.success
        [("EinheitMastrNummer", Value.plain "SEE901"),
         ("Lage", Value.nested [("Von", "1"), ("Bis", "2")])])
      none none ["u"] 0 0).written.head? =
      some (rowOf [("EinheitMastrNummer", Value.plain "SEE901"),
                   ("Lage", Value.nested [("Von", "1"), ("Bis", "2")])]) :=
  ⟨C8_theorem.1 [("Von", "1"), ("Bis", "2")] (by decide),
   C8_theorem.2.1 "SEE901",
   C8_theorem.2.2.1 _ "Lage" [("Von", "1"), ("Bis", "2")] (by decide) (by decide),
   C8_theorem.2.2.2.1 _ "EinheitMastrNummer" "SEE901" (by decide),
   C8_theorem.2.2.2.2 String (fun _ => FetchResult.success
        [("EinheitMastrNummer", Value.plain "SEE901"),
         ("Lage", Value.nested [("Von", "1"), ("Bis", "2")])])
      none "u" [] 0 0 _ rfl (by decide) rfl⟩

/-! ### Claim C9 -/

/-- A bad head input makes `_process_inputs` raise. -/
lemma process_inputs_head_bad (pathExists : List Char → Bool) (inp : List Char)
    (rest : List (List Char)) (hbad : badInput pathExists inp) :
    exceptOk (_process_inputs pathExists (inp :: rest)) = false := by
  rcases hbad with ⟨hc, hlen⟩ | ⟨hc, hlen, hex⟩ | ⟨hc, hex⟩
  · have hc' : ':' ∈ inp := by simpa using hc
    simp [_process_inputs, hc', hlen, exceptOk]
  · have hc' : ':' ∈ inp := by simpa using hc
    have hex' : pathExists ((splitColon inp)[0]?.getD []) = false := by simpa using hex
    simp [_process_inputs, hc', Nat.not_lt.mpr hlen, hex', exceptOk]
  · have hc' : ':' ∉ inp := by simpa using hc
    simp [_process_inputs, hc', hex, exceptOk]

/-- A raising tail makes `_process_inputs` raise regardless of the head. -/
lemma process_inputs_tail_error (pathExists : List Char → Bool) (inp : List Char)
    (rest : List (List Char))
    (htail : exceptOk (_process_inputs pathExists rest) = false) :
    exceptOk (_process_inputs pathExists (inp :: rest)) = false := by
  obtain ⟨err, herr⟩ : ∃ err, _process_inputs pathExists rest = .error err := by
    cases hrest : _process_inputs pathExists rest with
    | ok v => rw [hrest] at htail; simp [exceptOk] at htail
    | error err => exact ⟨err, rfl⟩
  by_cases hc : ':' ∈ inp
  · by_cases hlen : (splitColon inp).length > 2
    · simp [_process_inputs, hc, hlen, exceptOk]
    · by_cases hex : pathExists ((splitColon inp)[0]?.getD [])
      · cases hpi : parseInt ((splitColon inp)[1]?.getD []) with
        | none => simp [_process_inputs, hc, hlen, hex, hpi, exceptOk]
        | some n => simp [_process_inputs, hc, hlen, hex, hpi, herr, exceptOk]
      · simp only [Bool.not_eq_true] at hex
        simp [_process_inputs, hc, hlen, hex, exceptOk]
  · by_cases hex : pathExists inp
    · simp [_process_inputs, hc, hex, herr, exceptOk]
    · simp only [Bool.not_eq_true] at hex
      simp [_process_inputs, hc, hex, exceptOk]

/-- C9.  If any configured input specification has a nonexistent path or
contains more than one colon separator, the run aborts during startup input
processing: `_process_inputs` raises, `main` propagates the error before any
dispatcher run starts — so no Data batch is ever enqueued — and the number
of worker processes spawned is zero. -/
theorem C9_theorem (pathExists : List Char → Bool) (inputs : List (List Char))
    (index B P : Nat) (contents : List Char → List (List String))
    (hbad : ∃ inp ∈ inputs, badInput pathExists inp) :
    exceptOk (_process_inputs pathExists inputs) = false ∧
    exceptOk (main_run pathExists index B P contents inputs) = false ∧
    spawnedWorkers pathExists P inputs = 0 := by
  have hpi : exceptOk (_process_inputs pathExists inputs) = false := by
    induction inputs with
    | nil => simp at hbad
    | cons inp rest ih =>
      rcases hbad with ⟨x, hx, hxbad⟩
      rcases List.mem_cons.mp hx with hx | hx
      · subst hx
        exact process_inputs_head_bad pathExists x rest hxbad
      · exact process_inputs_tail_error pathExists inp rest (ih ⟨x, hx, hxbad⟩)
  obtain ⟨err, herr⟩ : ∃ err, _process_inputs pathExists inputs = .error err := by
    cases hrest : _process_inputs pathExists inputs with
    | ok v => rw [hrest] at hpi; simp [exceptOk] at hpi
    | error err => exact ⟨err, rfl⟩
  exact ⟨hpi, by simp [main_run, herr, exceptOk], by simp [spawnedWorkers, herr]⟩

/-- C9, witness: a run whose only input is `a:3:7` (two colons) aborts during
input validation with no worker spawned, even though the path exists. -/
theorem C9_witness :
    exceptOk (_process_inputs (fun _ => true)
        [['a', ':', '3', ':', '7']]) = false ∧
    exceptOk (main_run (fun _ => true) 0 BATCH_CHUNK_SIZE 4 (fun _ => [])
        [['a', ':', '3', ':', '7']]) = false ∧
    spawnedWorkers (fun _ => true) 4 [['a', ':', '3', ':', '7']] = 0 :=
  C9_theorem (fun _ => true) [['a', ':', '3', ':', '7']] 0 BATCH_CHUNK_SIZE 4
    (fun _ => []) ⟨['a', ':', '3', ':', '7'], by decide, Or.inl (by decide)⟩

end Mastr
